import Mathlib

/-!
Shallow embedding of the real-time connection/presence hub of this repository:
`ConnectionManager` (src/core/websocket_manager.py) and the disconnect branch of
`PresenceService.update_presence` (src/core/presence_service.py).

Python dicts are modelled as association lists (`Dict k v`) with Python's
update-in-place / append-new-key-at-end semantics; `list.remove` is `List.erase`
(first occurrence); raised-and-caught exceptions of external collaborators are
modelled by `Except` / `Option` results in an `Env` oracle record.  The methods
are sequential state transformers: the manager holds `asyncio.Lock`, and every
await point relevant to the claims happens inside it or is a per-call oracle.
-/

namespace Hub

abbrev UserId := Nat
abbrev WS := Nat
abbrev SessionId := String
abbrev Role := String
abbrev Msg := Nat

/-- Association list standing for a Python `dict` (unique keys, insertion order). -/
abbrev Dict (k v : Type) := List (k × v)

/-- `d[key]` / `d.get(key)`: value at the first entry whose key matches. -/
def dictGet [DecidableEq k] (d : Dict k v) (key : k) : Option v :=
  (d.find? (fun p => decide (p.1 = key))).map (fun p => p.2)

/-- `d[key] = val`: replace the value at an existing key in place, else append. -/
def dictSet [DecidableEq k] : Dict k v → k → v → Dict k v
  | [], key, val => [(key, val)]
  | p :: rest, key, val =>
      if p.1 = key then (key, val) :: rest else p :: dictSet rest key val

/-- `del d[key]`: drop the entry for `key` (no-op when absent). -/
def dictErase [DecidableEq k] (d : Dict k v) (key : k) : Dict k v :=
  d.filter (fun p => decide (p.1 ≠ key))

/-- `key in d`. -/
def dictContains [DecidableEq k] (d : Dict k v) (key : k) : Bool :=
  (dictGet d key).isSome

/-- `d.keys()`. -/
def dictKeys (d : Dict k v) : List k := d.map Prod.fst

/-- In-memory state of `ConnectionManager` (src/core/websocket_manager.py:29-34). -/
structure ManagerState where
  connections : Dict UserId (List WS)
  user_sessions : Dict UserId (Dict SessionId WS)
  session_watchers : Dict SessionId (List UserId)
  user_roles : Dict UserId Role
deriving DecidableEq, Repr

/-- Fresh manager: all four maps empty (`__init__`). -/
def initialState : ManagerState :=
  { connections := [], user_sessions := [], session_watchers := [], user_roles := [] }

/-- External collaborators:
`lookup_role` is `core.auth.get_effective_role` (an `.error` models a raised
exception), `session_owner` is the `chat_sessions` query of
`_get_session_user_id` (`none` models no row, no db connection, or a raised
exception), and `sendOk w` tells whether `websocket.send_json` on handle `w`
succeeds (`false` models any raised exception). -/
structure Env where
  lookup_role : UserId → Except String Role
  session_owner : SessionId → Option UserId
  sendOk : WS → Bool

/-- `ConnectionManager._get_user_role` (lines 288-303): any exception from the
role lookup is caught and the fallback role `"mentorado"` returned. -/
def getUserRole (env : Env) (uid : UserId) : Role :=
  match env.lookup_role uid with
  | .ok r => r
  | .error _ => "mentorado"

/-- `ConnectionManager.connect` (lines 36-65). -/
def connect (env : Env) (s : ManagerState) (uid : UserId) (ws : WS)
    (sid : Option SessionId) : ManagerState :=
  let s1 : ManagerState :=
    if dictContains s.connections uid then s
    else { s with connections := dictSet s.connections uid [],
                  user_roles := dictSet s.user_roles uid (getUserRole env uid) }
  let newConns : List WS := ((dictGet s1.connections uid).getD []) ++ [ws]
  let s2 : ManagerState := { s1 with connections := dictSet s1.connections uid newConns }
  match sid with
  | none => s2
  | some sessionId =>
      let m := (dictGet s2.user_sessions uid).getD []
      { s2 with user_sessions := dictSet s2.user_sessions uid (dictSet m sessionId ws) }

/-- `ConnectionManager.disconnect` (lines 67-105): remove the handle from the
user's connection list (`ValueError` on a missing handle is caught, leaving the
list untouched), dropping the user entry and its role-cache entry when the list
empties; strip the handle from the session index; remove the user from every
watcher list, deleting lists that become empty. -/
def disconnect (s : ManagerState) (uid : UserId) (ws : WS) : ManagerState :=
  let s1 : ManagerState :=
    match dictGet s.connections uid with
    | none => s
    | some conns =>
        if ws ∈ conns then
          let remaining := conns.erase ws
          if remaining = [] then
            { s with connections := dictErase s.connections uid,
                     user_roles := dictErase s.user_roles uid }
          else { s with connections := dictSet s.connections uid remaining }
        else s
  let s2 : ManagerState :=
    match dictGet s1.user_sessions uid with
    | none => s1
    | some smap =>
        let kept := smap.filter (fun p => decide (p.2 ≠ ws))
        if kept = [] then { s1 with user_sessions := dictErase s1.user_sessions uid }
        else { s1 with user_sessions := dictSet s1.user_sessions uid kept }
  { s2 with session_watchers :=
      s2.session_watchers.filterMap (fun p =>
        if uid ∈ p.2 then
          let w := p.2.erase uid
          if w = [] then none else some (p.1, w)
        else some p) }

/-- Instrumentation of a delivery call: which users `send_to_user` was invoked
on, which (user, handle, message) sends were attempted, and which succeeded. -/
structure SendLog where
  targets : List UserId
  attempts : List (UserId × WS × Msg)
  delivered : List (UserId × WS × Msg)
deriving DecidableEq, Repr

def SendLog.empty : SendLog := ⟨[], [], []⟩

def SendLog.append (a b : SendLog) : SendLog :=
  ⟨a.targets ++ b.targets, a.attempts ++ b.attempts, a.delivered ++ b.delivered⟩

/-- `ConnectionManager.send_to_user` (lines 107-129): silent return when the
user has no entry; otherwise attempt `send_json` on every handle, collect the
failing ones and `disconnect` each of them afterwards. -/
def send_to_user (env : Env) (s : ManagerState) (uid : UserId) (m : Msg) :
    ManagerState × SendLog :=
  match dictGet s.connections uid with
  | none => (s, ⟨[uid], [], []⟩)
  | some conns =>
      let dead := conns.filter (fun w => decide (env.sendOk w = false))
      let log : SendLog :=
        ⟨[uid],
         conns.map (fun w => (uid, w, m)),
         (conns.filter (fun w => env.sendOk w)).map (fun w => (uid, w, m))⟩
      (dead.foldl (fun st w => disconnect st uid w) s, log)

/-- `self.session_watchers.get(session_id, [])` (`get_session_watchers`,
lines 232-242). -/
def watchersOf (s : ManagerState) (sid : SessionId) : List UserId :=
  (dictGet s.session_watchers sid).getD []

/-- The watcher loop of `send_to_session` (lines 156-159): Python iterates the
live watcher list by index while `send_to_user` may mutate it through reaping,
so the list is re-read from the current state at every step.  The fuel is the
length of the list at loop entry, which bounds the number of iterations because
the index grows by one per step and the list never grows during the loop. -/
def watcherFanout (env : Env) (sid : SessionId) (m : Msg) (excl : Option UserId) :
    Nat → Nat → ManagerState → SendLog → ManagerState × SendLog
  | 0, _, s, log => (s, log)
  | fuel + 1, i, s, log =>
      let ws := watchersOf s sid
      if h : i < ws.length then
        let adminId := ws.get ⟨i, h⟩
        if excl = some adminId then
          watcherFanout env sid m excl fuel (i + 1) s log
        else
          let r := send_to_user env s adminId m
          watcherFanout env sid m excl fuel (i + 1) r.1 (log.append r.2)
      else (s, log)

/-- `ConnectionManager.send_to_session` (lines 131-159): resolve the session
owner (`if not session_user_id: return` — in Python this also treats owner id
0 as unresolved, which cannot arise from the schema where `users.user_id` is
`INTEGER PRIMARY KEY AUTOINCREMENT`, hence starts at 1), deliver to the owner
unless excluded, then to every non-excluded watcher. -/
def send_to_session (env : Env) (s : ManagerState) (sid : SessionId) (m : Msg)
    (excl : Option UserId) : ManagerState × SendLog :=
  match env.session_owner sid with
  | none => (s, SendLog.empty)
  | some owner =>
      if owner = 0 then (s, SendLog.empty)
      else
        let r1 :=
          if excl = some owner then (s, SendLog.empty)
          else send_to_user env s owner m
        let r2 := watcherFanout env sid m excl (watchersOf r1.1 sid).length 0 r1.1 SendLog.empty
        (r2.1, r1.2.append r2.2)

/-- Target selection of `ConnectionManager.broadcast_to_role` (lines 169-172):
every cached user whose role matches, or every cached user when `role = "all"`. -/
def broadcast_to_role_targets (s : ManagerState) (role : Role) : List UserId :=
  (s.user_roles.filter (fun p => decide (p.2 = role ∨ role = "all"))).map Prod.fst

/-- Target selection of `ConnectionManager.broadcast_all` (line 189):
`self.connections.keys()`. -/
def broadcast_all_targets (s : ManagerState) : List UserId :=
  dictKeys s.connections

/-- `ConnectionManager.add_session_watcher` (lines 192-205). -/
def add_session_watcher (s : ManagerState) (sid : SessionId) (adminId : UserId) :
    ManagerState :=
  let s1 :=
    if dictContains s.session_watchers sid then s
    else { s with session_watchers := dictSet s.session_watchers sid [] }
  let cur := (dictGet s1.session_watchers sid).getD []
  if adminId ∈ cur then s1
  else { s1 with session_watchers := dictSet s1.session_watchers sid (cur ++ [adminId]) }

/-- `ConnectionManager.remove_session_watcher` (lines 207-221). -/
def remove_session_watcher (s : ManagerState) (sid : SessionId) (adminId : UserId) :
    ManagerState :=
  match dictGet s.session_watchers sid with
  | none => s
  | some ws =>
      if adminId ∈ ws then
        let remaining := ws.erase adminId
        if remaining = [] then
          { s with session_watchers := dictErase s.session_watchers sid }
        else { s with session_watchers := dictSet s.session_watchers sid remaining }
      else s

/-- `ConnectionManager.is_user_online` (lines 244-254). -/
def is_user_online (s : ManagerState) (uid : UserId) : Bool :=
  dictContains s.connections uid

/-- `ConnectionManager.get_connection_count` (lines 256-258). -/
def get_connection_count (s : ManagerState) : Nat :=
  (s.connections.map (fun p => p.2.length)).sum

/-- `ConnectionManager.get_online_users_count` (lines 260-262). -/
def get_online_users_count (s : ManagerState) : Nat :=
  s.connections.length

/-- `ConnectionManager.get_online_users` (lines 223-230). -/
def get_online_users (s : ManagerState) : List UserId :=
  dictKeys s.connections

/-- The connection list currently registered for a user (empty when absent). -/
def userConnections (s : ManagerState) (uid : UserId) : List WS :=
  (dictGet s.connections uid).getD []

/-- `ConnectionManager.disconnect_all` (lines 264-284): after best-effort
closing of every socket, all four maps are cleared. -/
def disconnect_all (_s : ManagerState) : ManagerState :=
  { connections := [], user_sessions := [], session_watchers := [], user_roles := [] }

/-- States reachable from a fresh manager through the public mutating API,
with arbitrary collaborator behaviour at every step. -/
inductive Reachable : ManagerState → Prop
  | init : Reachable initialState
  | connect (env : Env) (s : ManagerState) (uid : UserId) (ws : WS)
      (sid : Option SessionId) : Reachable s → Reachable (connect env s uid ws sid)
  | disconnect (s : ManagerState) (uid : UserId) (ws : WS) :
      Reachable s → Reachable (disconnect s uid ws)
  | send_to_user (env : Env) (s : ManagerState) (uid : UserId) (m : Msg) :
      Reachable s → Reachable (send_to_user env s uid m).1
  | send_to_session (env : Env) (s : ManagerState) (sid : SessionId) (m : Msg)
      (excl : Option UserId) : Reachable s → Reachable (send_to_session env s sid m excl).1
  | add_watcher (s : ManagerState) (sid : SessionId) (adminId : UserId) :
      Reachable s → Reachable (add_session_watcher s sid adminId)
  | remove_watcher (s : ManagerState) (sid : SessionId) (adminId : UserId) :
      Reachable s → Reachable (remove_session_watcher s sid adminId)
  | shutdown (s : ManagerState) : Reachable s → Reachable (disconnect_all s)

/-- Disconnect branch of the `user_presence` row update
(src/core/presence_service.py:56-62).  In SQLite the right-hand sides of an
`UPDATE` all read the old row, so both the clamped count and the online flag
are computed from the pre-update `connection_count`. -/
structure PresenceRecord where
  is_online : Bool
  connected_at : String
  last_seen : String
  connection_count : Int
deriving DecidableEq, Repr

def presenceDisconnectUpdate (r : PresenceRecord) (now : String) : PresenceRecord :=
  { r with
    connection_count := max 0 (r.connection_count - 1),
    is_online := if r.connection_count - 1 ≤ 0 then false else true,
    last_seen := now }

/-- `PresenceService.update_presence` with `is_online=False` (lines 54-62): the
SQL `UPDATE ... WHERE user_id = ?` rewrites exactly the rows whose key matches
(at most one, as `user_id` is the primary key) and touches no other row. -/
def update_presence_disconnect (db : Dict UserId PresenceRecord) (uid : UserId)
    (now : String) : Dict UserId PresenceRecord :=
  db.map (fun p => if p.1 = uid then (p.1, presenceDisconnectUpdate p.2 now) else p)

/-! ### Dictionary lemmas -/

theorem dictGet_nil [DecidableEq k] (key : k) : dictGet ([] : Dict k v) key = none := rfl

theorem dictGet_cons [DecidableEq k] (p : k × v) (d : Dict k v) (key : k) :
    dictGet (p :: d) key = if p.1 = key then some p.2 else dictGet d key := by
  by_cases h : p.1 = key <;> simp [dictGet, List.find?_cons, h]

theorem dictGet_dictSet_self [DecidableEq k] (d : Dict k v) (key : k) (val : v) :
    dictGet (dictSet d key val) key = some val := by
  induction d with
  | nil => simp [dictSet, dictGet_cons, dictGet_nil]
  | cons p rest ih =>
      by_cases h : p.1 = key
      · simp [dictSet, h, dictGet_cons]
      · simp [dictSet, h, dictGet_cons, ih]

theorem dictGet_dictSet_ne [DecidableEq k] (d : Dict k v) (key key' : k) (val : v)
    (h : key' ≠ key) : dictGet (dictSet d key val) key' = dictGet d key' := by
  have hne : ¬ key = key' := fun hc => h hc.symm
  induction d with
  | nil => simp [dictSet, dictGet_cons, dictGet_nil, hne]
  | cons p rest ih =>
      by_cases hp : p.1 = key
      · rw [show dictSet (p :: rest) key val = (key, val) :: rest by simp [dictSet, hp]]
        rw [dictGet_cons, dictGet_cons, if_neg hne, if_neg (by rw [hp]; exact hne)]
      · rw [show dictSet (p :: rest) key val = p :: dictSet rest key val by
              simp [dictSet, hp]]
        rw [dictGet_cons, dictGet_cons, ih]

theorem dictGet_dictErase_self [DecidableEq k] (d : Dict k v) (key : k) :
    dictGet (dictErase d key) key = none := by
  induction d with
  | nil => rfl
  | cons p rest ih =>
      by_cases h : p.1 = key
      · rw [show dictErase (p :: rest) key = dictErase rest key by
              simp [dictErase, List.filter_cons, h]]
        exact ih
      · rw [show dictErase (p :: rest) key = p :: dictErase rest key by
              simp [dictErase, List.filter_cons, h]]
        rw [dictGet_cons, if_neg h]
        exact ih

theorem dictGet_dictErase_ne [DecidableEq k] (d : Dict k v) (key key' : k)
    (h : key' ≠ key) : dictGet (dictErase d key) key' = dictGet d key' := by
  induction d with
  | nil => rfl
  | cons p rest ih =>
      by_cases hp : p.1 = key
      · rw [show dictErase (p :: rest) key = dictErase rest key by
              simp [dictErase, List.filter_cons, hp]]
        rw [ih, dictGet_cons, if_neg (by rw [hp]; exact fun hc => h hc.symm)]
      · rw [show dictErase (p :: rest) key = p :: dictErase rest key by
              simp [dictErase, List.filter_cons, hp]]
        rw [dictGet_cons, dictGet_cons, ih]

theorem dictSet_dictSet [DecidableEq k] (d : Dict k v) (key : k) (a b : v) :
    dictSet (dictSet d key a) key b = dictSet d key b := by
  induction d with
  | nil => simp [dictSet]
  | cons p rest ih =>
      by_cases h : p.1 = key
      · simp [dictSet, h]
      · simp [dictSet, h, ih]

theorem dictSet_of_get_eq [DecidableEq k] (d : Dict k v) (key : k) (val : v)
    (h : dictGet d key = some val) : dictSet d key val = d := by
  induction d with
  | nil => simp [dictGet_nil] at h
  | cons p rest ih =>
      rw [dictGet_cons] at h
      by_cases hp : p.1 = key
      · rw [if_pos hp] at h
        have hv : p.2 = val := Option.some.inj h
        rw [show dictSet (p :: rest) key val = (key, val) :: rest by simp [dictSet, hp]]
        rw [← hp, ← hv]
      · rw [if_neg hp] at h
        rw [show dictSet (p :: rest) key val = p :: dictSet rest key val by
              simp [dictSet, hp]]
        rw [ih h]

theorem mem_dictKeys_iff [DecidableEq k] (d : Dict k v) (key : k) :
    key ∈ dictKeys d ↔ (dictGet d key).isSome := by
  induction d with
  | nil => simp [dictKeys, dictGet_nil]
  | cons p rest ih =>
      rw [dictKeys, List.map_cons, List.mem_cons, dictGet_cons]
      by_cases hp : p.1 = key
      · simp [hp]
      · have hkp : ¬ key = p.1 := fun hc => hp hc.symm
        rw [dictKeys] at ih
        simp [hkp, hp, ih]

theorem dictGet_mem [DecidableEq k] {d : Dict k v} {key : k} {val : v}
    (h : dictGet d key = some val) : (key, val) ∈ d := by
  induction d with
  | nil => simp [dictGet_nil] at h
  | cons p rest ih =>
      rw [dictGet_cons] at h
      by_cases hp : p.1 = key
      · rw [if_pos hp] at h
        have hv : p.2 = val := Option.some.inj h
        rw [← hp, ← hv]
        exact List.mem_cons_self p rest
      · rw [if_neg hp] at h
        exact List.mem_cons_of_mem _ (ih h)

theorem mem_dictSet [DecidableEq k] {d : Dict k v} {key : k} {val : v} {p : k × v}
    (h : p ∈ dictSet d key val) : p ∈ d ∨ p = (key, val) := by
  induction d with
  | nil =>
      simp only [dictSet] at h
      exact Or.inr (List.mem_singleton.mp h)
  | cons q rest ih =>
      by_cases hq : q.1 = key
      · rw [show dictSet (q :: rest) key val = (key, val) :: rest by simp [dictSet, hq]] at h
        rcases List.mem_cons.mp h with h | h
        · exact Or.inr h
        · exact Or.inl (List.mem_cons_of_mem _ h)
      · rw [show dictSet (q :: rest) key val = q :: dictSet rest key val by
              simp [dictSet, hq]] at h
        rcases List.mem_cons.mp h with h | h
        · exact Or.inl (by rw [h]; exact List.mem_cons_self q rest)
        · rcases ih h with h2 | h2
          · exact Or.inl (List.mem_cons_of_mem _ h2)
          · exact Or.inr h2

/-- With unique keys, entry membership implies lookup success. -/
theorem dictGet_of_mem_nodup [DecidableEq k] {d : Dict k v}
    (hnd : (dictKeys d).Nodup) {key : k} {val : v} (hmem : (key, val) ∈ d) :
    dictGet d key = some val := by
  induction d with
  | nil => simp at hmem
  | cons p rest ih =>
      rw [dictKeys, List.map_cons, List.nodup_cons] at hnd
      rcases List.mem_cons.mp hmem with h | h
      · have h1 : p.1 = key := (congrArg Prod.fst h).symm
        have h2 : p.2 = val := (congrArg Prod.snd h).symm
        rw [dictGet_cons, if_pos h1, h2]
      · have hne : p.1 ≠ key := by
          intro hk
          exact hnd.1 (by rw [hk]; exact List.mem_map.mpr ⟨(key, val), h, rfl⟩)
        rw [dictGet_cons, if_neg hne]
        exact ih hnd.2 h

/-- With unique keys, membership of an entry coincides with lookup. -/
theorem dictGet_eq_some_iff_mem [DecidableEq k] {d : Dict k v}
    (hnd : (dictKeys d).Nodup) (key : k) (val : v) :
    dictGet d key = some val ↔ (key, val) ∈ d :=
  ⟨dictGet_mem, dictGet_of_mem_nodup hnd⟩

/-! ### Per-field characterization of the mutating operations -/

def connsAfterDisconnect (c : Dict UserId (List WS)) (uid : UserId) (ws : WS) :
    Dict UserId (List WS) :=
  match dictGet c uid with
  | none => c
  | some conns =>
      if ws ∈ conns then
        if conns.erase ws = [] then dictErase c uid
        else dictSet c uid (conns.erase ws)
      else c

def rolesAfterDisconnect (c : Dict UserId (List WS)) (r : Dict UserId Role)
    (uid : UserId) (ws : WS) : Dict UserId Role :=
  match dictGet c uid with
  | none => r
  | some conns =>
      if ws ∈ conns then
        if conns.erase ws = [] then dictErase r uid else r
      else r

def sessionsAfterDisconnect (m : Dict UserId (Dict SessionId WS)) (uid : UserId)
    (ws : WS) : Dict UserId (Dict SessionId WS) :=
  match dictGet m uid with
  | none => m
  | some smap =>
      let kept := smap.filter (fun p => decide (p.2 ≠ ws))
      if kept = [] then dictErase m uid else dictSet m uid kept

def watchersAfterDisconnect (w : Dict SessionId (List UserId)) (uid : UserId) :
    Dict SessionId (List UserId) :=
  w.filterMap (fun p =>
    if uid ∈ p.2 then
      let l := p.2.erase uid
      if l = [] then none else some (p.1, l)
    else some p)

theorem disconnect_eq (s : ManagerState) (uid : UserId) (ws : WS) :
    disconnect s uid ws =
      { connections := connsAfterDisconnect s.connections uid ws,
        user_sessions := sessionsAfterDisconnect s.user_sessions uid ws,
        session_watchers := watchersAfterDisconnect s.session_watchers uid,
        user_roles := rolesAfterDisconnect s.connections s.user_roles uid ws } := by
  unfold disconnect connsAfterDisconnect rolesAfterDisconnect sessionsAfterDisconnect
    watchersAfterDisconnect
  cases hc : dictGet s.connections uid with
  | none =>
      cases hs : dictGet s.user_sessions uid with
      | none => simp [hc, hs]
      | some smap => simp only [hc, hs]; split <;> rfl
  | some conns =>
      by_cases hw : ws ∈ conns
      · by_cases he : conns.erase ws = []
        · cases hs : dictGet s.user_sessions uid with
          | none => simp [hc, hs, hw, he]
          | some smap => simp only [hc, hs, if_pos hw, if_pos he]; split <;> rfl
        · cases hs : dictGet s.user_sessions uid with
          | none => simp [hc, hs, hw, he]
          | some smap => simp only [hc, hs, if_pos hw, if_neg he]; split <;> rfl
      · cases hs : dictGet s.user_sessions uid with
        | none => simp [hc, hs, hw]
        | some smap => simp only [hc, hs, if_neg hw]; split <;> rfl

theorem connect_eq (env : Env) (s : ManagerState) (uid : UserId) (ws : WS)
    (sid : Option SessionId) :
    connect env s uid ws sid =
      { connections := dictSet s.connections uid (userConnections s uid ++ [ws]),
        user_sessions :=
          match sid with
          | none => s.user_sessions
          | some sessionId =>
              dictSet s.user_sessions uid
                (dictSet ((dictGet s.user_sessions uid).getD []) sessionId ws),
        session_watchers := s.session_watchers,
        user_roles :=
          if dictContains s.connections uid then s.user_roles
          else dictSet s.user_roles uid (getUserRole env uid) } := by
  unfold connect userConnections
  by_cases hc : dictContains s.connections uid
  · cases sid <;> simp [hc]
  · have hget : dictGet s.connections uid = none := by
      unfold dictContains at hc
      cases h : dictGet s.connections uid with
      | none => rfl
      | some v => rw [h] at hc; simp at hc
    cases sid <;>
      simp [hc, hget, dictGet_dictSet_self, dictSet_dictSet]

/-! ### Key-list lemmas -/

theorem dictKeys_dictSet_of_isSome [DecidableEq k] {d : Dict k v} {key : k}
    (h : (dictGet d key).isSome) (val : v) :
    dictKeys (dictSet d key val) = dictKeys d := by
  induction d with
  | nil => simp [dictGet_nil] at h
  | cons p rest ih =>
      by_cases hp : p.1 = key
      · rw [show dictSet (p :: rest) key val = (key, val) :: rest by simp [dictSet, hp]]
        simp [dictKeys, hp]
      · rw [dictGet_cons, if_neg hp] at h
        rw [show dictSet (p :: rest) key val = p :: dictSet rest key val by
              simp [dictSet, hp]]
        simp only [dictKeys, List.map_cons]
        rw [show List.map Prod.fst (dictSet rest key val) = dictKeys rest from ih h]
        rfl

theorem dictKeys_dictSet_of_none [DecidableEq k] {d : Dict k v} {key : k}
    (h : dictGet d key = none) (val : v) :
    dictKeys (dictSet d key val) = dictKeys d ++ [key] := by
  induction d with
  | nil => simp [dictSet, dictKeys]
  | cons p rest ih =>
      by_cases hp : p.1 = key
      · rw [dictGet_cons, if_pos hp] at h
        simp at h
      · rw [dictGet_cons, if_neg hp] at h
        rw [show dictSet (p :: rest) key val = p :: dictSet rest key val by
              simp [dictSet, hp]]
        simp only [dictKeys, List.map_cons, List.cons_append]
        rw [show List.map Prod.fst (dictSet rest key val) = dictKeys rest ++ [key] from ih h]
        rfl

theorem dictKeys_dictErase_sublist [DecidableEq k] (d : Dict k v) (key : k) :
    (dictKeys (dictErase d key)).Sublist (dictKeys d) :=
  List.Sublist.map Prod.fst (List.filter_sublist d)

theorem dictKeys_watchersAfterDisconnect_sublist (w : Dict SessionId (List UserId))
    (uid : UserId) :
    (dictKeys (watchersAfterDisconnect w uid)).Sublist (dictKeys w) := by
  induction w with
  | nil => simp [watchersAfterDisconnect, dictKeys]
  | cons p rest ih =>
      by_cases hm : uid ∈ p.2
      · by_cases he : p.2.erase uid = []
        · have he' : p.2 = [] ∨ p.2 = [uid] := by simpa using he
          rw [show watchersAfterDisconnect (p :: rest) uid = watchersAfterDisconnect rest uid by
                simp [watchersAfterDisconnect, List.filterMap_cons, hm, he']]
          exact ih.trans (List.sublist_cons_self _ _)
        · have he' : ¬ (p.2 = [] ∨ p.2 = [uid]) := by simpa using he
          rw [show watchersAfterDisconnect (p :: rest) uid =
                  (p.1, p.2.erase uid) :: watchersAfterDisconnect rest uid by
                simp [watchersAfterDisconnect, List.filterMap_cons, hm, he']]
          exact List.Sublist.cons₂ _ ih
      · rw [show watchersAfterDisconnect (p :: rest) uid =
                p :: watchersAfterDisconnect rest uid by
              simp [watchersAfterDisconnect, List.filterMap_cons, hm]]
        exact List.Sublist.cons₂ _ ih

/-! ### The reachable-state invariant -/

/-- Structural consistency of a manager state: no user entry holds an empty
connection list, the role cache and the connection map cover the same users,
no session entry holds an empty watcher list, and watcher keys are unique. -/
def Inv (s : ManagerState) : Prop :=
  (∀ p ∈ s.connections, p.2 ≠ ([] : List WS)) ∧
  (∀ uid : UserId, (dictGet s.user_roles uid).isSome ↔ (dictGet s.connections uid).isSome) ∧
  (∀ p ∈ s.session_watchers, p.2 ≠ ([] : List UserId)) ∧
  (dictKeys s.session_watchers).Nodup

theorem inv_initial : Inv initialState := by
  refine ⟨?_, ?_, ?_, ?_⟩ <;> simp [initialState, dictGet_nil, dictKeys]

theorem inv_connect (env : Env) (s : ManagerState) (uid : UserId) (ws : WS)
    (sid : Option SessionId) (h : Inv s) : Inv (connect env s uid ws sid) := by
  obtain ⟨hconn, hrole, hwatch, hnd⟩ := h
  rw [connect_eq]
  refine ⟨?_, ?_, hwatch, hnd⟩
  · intro p hp
    rcases mem_dictSet hp with hmem | heq
    · exact hconn p hmem
    · rw [heq]; simp
  · intro u
    by_cases hu : u = uid
    · subst hu
      rw [dictGet_dictSet_self]
      by_cases hc : dictContains s.connections u
      · rw [if_pos hc]
        unfold dictContains at hc
        simpa [(hrole u)] using hc
      · rw [if_neg hc, dictGet_dictSet_self]
        simp
    · rw [dictGet_dictSet_ne _ _ _ _ hu]
      by_cases hc : dictContains s.connections uid
      · rw [if_pos hc]
        exact hrole u
      · rw [if_neg hc, dictGet_dictSet_ne _ _ _ _ hu]
        exact hrole u

theorem connsAfter_none {c : Dict UserId (List WS)} {uid : UserId} (ws : WS)
    (hc : dictGet c uid = none) : connsAfterDisconnect c uid ws = c := by
  unfold connsAfterDisconnect
  rw [hc]

theorem connsAfter_not_mem {c : Dict UserId (List WS)} {uid : UserId} {ws : WS}
    {conns : List WS} (hc : dictGet c uid = some conns) (hw : ws ∉ conns) :
    connsAfterDisconnect c uid ws = c := by
  unfold connsAfterDisconnect
  rw [hc]
  exact if_neg hw

theorem connsAfter_last {c : Dict UserId (List WS)} {uid : UserId} {ws : WS}
    {conns : List WS} (hc : dictGet c uid = some conns) (hw : ws ∈ conns)
    (he : conns.erase ws = []) : connsAfterDisconnect c uid ws = dictErase c uid := by
  unfold connsAfterDisconnect
  rw [hc]
  show (if ws ∈ conns then
          if conns.erase ws = [] then dictErase c uid else dictSet c uid (conns.erase ws)
        else c) = dictErase c uid
  rw [if_pos hw, if_pos he]

theorem connsAfter_keep {c : Dict UserId (List WS)} {uid : UserId} {ws : WS}
    {conns : List WS} (hc : dictGet c uid = some conns) (hw : ws ∈ conns)
    (he : ¬ conns.erase ws = []) :
    connsAfterDisconnect c uid ws = dictSet c uid (conns.erase ws) := by
  unfold connsAfterDisconnect
  rw [hc]
  show (if ws ∈ conns then
          if conns.erase ws = [] then dictErase c uid else dictSet c uid (conns.erase ws)
        else c) = dictSet c uid (conns.erase ws)
  rw [if_pos hw, if_neg he]

theorem rolesAfter_none {c : Dict UserId (List WS)} {r : Dict UserId Role} {uid : UserId}
    (ws : WS) (hc : dictGet c uid = none) : rolesAfterDisconnect c r uid ws = r := by
  unfold rolesAfterDisconnect
  rw [hc]

theorem rolesAfter_not_mem {c : Dict UserId (List WS)} {r : Dict UserId Role}
    {uid : UserId} {ws : WS} {conns : List WS} (hc : dictGet c uid = some conns)
    (hw : ws ∉ conns) : rolesAfterDisconnect c r uid ws = r := by
  unfold rolesAfterDisconnect
  rw [hc]
  exact if_neg hw

theorem rolesAfter_last {c : Dict UserId (List WS)} {r : Dict UserId Role}
    {uid : UserId} {ws : WS} {conns : List WS} (hc : dictGet c uid = some conns)
    (hw : ws ∈ conns) (he : conns.erase ws = []) :
    rolesAfterDisconnect c r uid ws = dictErase r uid := by
  unfold rolesAfterDisconnect
  rw [hc]
  show (if ws ∈ conns then if conns.erase ws = [] then dictErase r uid else r else r) =
    dictErase r uid
  rw [if_pos hw, if_pos he]

theorem rolesAfter_keep {c : Dict UserId (List WS)} {r : Dict UserId Role}
    {uid : UserId} {ws : WS} {conns : List WS} (hc : dictGet c uid = some conns)
    (hw : ws ∈ conns) (he : ¬ conns.erase ws = []) :
    rolesAfterDisconnect c r uid ws = r := by
  unfold rolesAfterDisconnect
  rw [hc]
  show (if ws ∈ conns then if conns.erase ws = [] then dictErase r uid else r else r) = r
  rw [if_pos hw, if_neg he]

/-- Every entry of the stripped watcher index is either an untouched entry of
the original (not containing `uid`) or an erased, still non-empty entry. -/
theorem mem_watchersAfterDisconnect {w : Dict SessionId (List UserId)} {uid : UserId}
    {p : SessionId × List UserId} (hp : p ∈ watchersAfterDisconnect w uid) :
    (p ∈ w ∧ uid ∉ p.2) ∨
      (∃ q ∈ w, uid ∈ q.2 ∧ p = (q.1, q.2.erase uid) ∧ q.2.erase uid ≠ []) := by
  unfold watchersAfterDisconnect at hp
  rcases List.mem_filterMap.mp hp with ⟨q, hq, hfq⟩
  by_cases hm : uid ∈ q.2
  · by_cases he : q.2.erase uid = []
    · exfalso
      have : (none : Option (SessionId × List UserId)) = some p := by
        rw [← hfq]
        show none =
          (if uid ∈ q.2 then
            (if q.2.erase uid = [] then none else some (q.1, q.2.erase uid))
          else some q)
        rw [if_pos hm, if_pos he]
      exact Option.noConfusion this
    · have hfq2 : some (q.1, q.2.erase uid) = some p := by
        rw [← hfq]
        show some (q.1, q.2.erase uid) =
          (if uid ∈ q.2 then
            (if q.2.erase uid = [] then none else some (q.1, q.2.erase uid))
          else some q)
        rw [if_pos hm, if_neg he]
      exact Or.inr ⟨q, hq, hm, (Option.some.inj hfq2).symm, he⟩
  · have hfq2 : some q = some p := by
      rw [← hfq]
      show some q =
        (if uid ∈ q.2 then
          (if q.2.erase uid = [] then none else some (q.1, q.2.erase uid))
        else some q)
      rw [if_neg hm]
    have hqp : q = p := Option.some.inj hfq2
    exact Or.inl ⟨hqp ▸ hq, hqp ▸ hm⟩

theorem inv_disconnect (s : ManagerState) (uid : UserId) (ws : WS) (h : Inv s) :
    Inv (disconnect s uid ws) := by
  obtain ⟨hconn, hrole, hwatch, hnd⟩ := h
  rw [disconnect_eq]
  refine ⟨?_, ?_, ?_, ?_⟩
  · intro p hp
    simp only at hp
    cases hc : dictGet s.connections uid with
    | none => rw [connsAfter_none ws hc] at hp; exact hconn p hp
    | some conns =>
        by_cases hw : ws ∈ conns
        · by_cases he : conns.erase ws = []
          · rw [connsAfter_last hc hw he] at hp
            exact hconn p (List.mem_of_mem_filter hp)
          · rw [connsAfter_keep hc hw he] at hp
            rcases mem_dictSet hp with hmem | heq
            · exact hconn p hmem
            · rw [heq]; exact he
        · rw [connsAfter_not_mem hc hw] at hp; exact hconn p hp
  · intro u
    simp only
    cases hc : dictGet s.connections uid with
    | none => rw [connsAfter_none ws hc, rolesAfter_none ws hc]; exact hrole u
    | some conns =>
        by_cases hw : ws ∈ conns
        · by_cases he : conns.erase ws = []
          · rw [connsAfter_last hc hw he, rolesAfter_last hc hw he]
            by_cases hu : u = uid
            · subst hu
              rw [dictGet_dictErase_self, dictGet_dictErase_self]
              exact Iff.rfl
            · rw [dictGet_dictErase_ne _ _ _ hu, dictGet_dictErase_ne _ _ _ hu]
              exact hrole u
          · rw [connsAfter_keep hc hw he, rolesAfter_keep hc hw he]
            by_cases hu : u = uid
            · subst hu
              rw [dictGet_dictSet_self]
              have hs : (dictGet s.connections u).isSome := by rw [hc]; rfl
              simpa [(hrole u)] using hs
            · rw [dictGet_dictSet_ne _ _ _ _ hu]
              exact hrole u
        · rw [connsAfter_not_mem hc hw, rolesAfter_not_mem hc hw]
          exact hrole u
  · intro p hp
    rcases mem_watchersAfterDisconnect hp with ⟨hmem, _⟩ | ⟨q, _, _, hpq, hne⟩
    · exact hwatch p hmem
    · rw [hpq]
      exact hne
  · exact (dictKeys_watchersAfterDisconnect_sublist _ _).nodup hnd

theorem inv_foldl_disconnect (uid : UserId) :
    ∀ (l : List WS) (s : ManagerState), Inv s →
      Inv (l.foldl (fun st w => disconnect st uid w) s)
  | [], _, h => h
  | w :: rest, s, h =>
      inv_foldl_disconnect uid rest (disconnect s uid w) (inv_disconnect s uid w h)

theorem inv_send_to_user (env : Env) (s : ManagerState) (uid : UserId) (m : Msg)
    (h : Inv s) : Inv (send_to_user env s uid m).1 := by
  unfold send_to_user
  cases hc : dictGet s.connections uid with
  | none => exact h
  | some conns => exact inv_foldl_disconnect uid _ s h

/-- Loop-exit equation for `watcherFanout`. -/
theorem watcherFanout_stop (env : Env) (sid : SessionId) (m : Msg) (excl : Option UserId)
    (fuel i : Nat) (s : ManagerState) (log : SendLog)
    (h : ¬ i < (watchersOf s sid).length) :
    watcherFanout env sid m excl (fuel + 1) i s log = (s, log) := by
  simp only [watcherFanout]
  rw [dif_neg h]

/-- Excluded-admin equation for `watcherFanout`. -/
theorem watcherFanout_skip (env : Env) (sid : SessionId) (m : Msg) (excl : Option UserId)
    (fuel i : Nat) (s : ManagerState) (log : SendLog)
    (h : i < (watchersOf s sid).length)
    (hex : excl = some ((watchersOf s sid).get ⟨i, h⟩)) :
    watcherFanout env sid m excl (fuel + 1) i s log =
      watcherFanout env sid m excl fuel (i + 1) s log := by
  simp only [watcherFanout]
  rw [dif_pos h, if_pos hex]

/-- Delivering-step equation for `watcherFanout`. -/
theorem watcherFanout_send (env : Env) (sid : SessionId) (m : Msg) (excl : Option UserId)
    (fuel i : Nat) (s : ManagerState) (log : SendLog)
    (h : i < (watchersOf s sid).length)
    (hex : ¬ excl = some ((watchersOf s sid).get ⟨i, h⟩)) :
    watcherFanout env sid m excl (fuel + 1) i s log =
      watcherFanout env sid m excl fuel (i + 1)
        (send_to_user env s ((watchersOf s sid).get ⟨i, h⟩) m).1
        (log.append (send_to_user env s ((watchersOf s sid).get ⟨i, h⟩) m).2) := by
  simp only [watcherFanout]
  rw [dif_pos h, if_neg hex]

theorem inv_watcherFanout (env : Env) (sid : SessionId) (m : Msg) (excl : Option UserId) :
    ∀ (fuel i : Nat) (s : ManagerState) (log : SendLog), Inv s →
      Inv (watcherFanout env sid m excl fuel i s log).1
  | 0, _, _, _, h => h
  | fuel + 1, i, s, log, h => by
      by_cases hlt : i < (watchersOf s sid).length
      · by_cases hex : excl = some ((watchersOf s sid).get ⟨i, hlt⟩)
        · rw [watcherFanout_skip env sid m excl fuel i s log hlt hex]
          exact inv_watcherFanout env sid m excl fuel (i + 1) s log h
        · rw [watcherFanout_send env sid m excl fuel i s log hlt hex]
          exact inv_watcherFanout env sid m excl fuel (i + 1) _ _
            (inv_send_to_user env s _ m h)
      · rw [watcherFanout_stop env sid m excl fuel i s log hlt]
        exact h

theorem inv_send_to_session (env : Env) (s : ManagerState) (sid : SessionId) (m : Msg)
    (excl : Option UserId) (h : Inv s) : Inv (send_to_session env s sid m excl).1 := by
  unfold send_to_session
  cases ho : env.session_owner sid with
  | none => exact h
  | some owner =>
      by_cases h0 : owner = 0
      · simp only [if_pos h0]
        exact h
      · simp only [if_neg h0]
        by_cases hex : excl = some owner
        · simp only [if_pos hex]
          exact inv_watcherFanout env sid m excl _ 0 s SendLog.empty h
        · simp only [if_neg hex]
          exact inv_watcherFanout env sid m excl _ 0 _ SendLog.empty
            (inv_send_to_user env s owner m h)

theorem inv_add_watcher (s : ManagerState) (sid : SessionId) (a : UserId) (h : Inv s) :
    Inv (add_session_watcher s sid a) := by
  obtain ⟨hconn, hrole, hwatch, hnd⟩ := h
  unfold add_session_watcher
  cases hg : dictGet s.session_watchers sid with
  | some l =>
      have hc : dictContains s.session_watchers sid = true := by
        unfold dictContains; rw [hg]; rfl
      simp only [hc, if_true, hg, Option.getD_some]
      by_cases hm : a ∈ l
      · rw [if_pos hm]
        exact ⟨hconn, hrole, hwatch, hnd⟩
      · rw [if_neg hm]
        refine ⟨hconn, hrole, ?_, ?_⟩
        · intro p hp
          rcases mem_dictSet hp with hmem | heq
          · exact hwatch p hmem
          · rw [heq]; simp
        · rw [dictKeys_dictSet_of_isSome (by rw [hg]; rfl)]
          exact hnd
  | none =>
      have hc : dictContains s.session_watchers sid = false := by
        unfold dictContains; rw [hg]; rfl
      simp only [hc, if_false, Bool.false_eq_true, dictGet_dictSet_self, Option.getD_some,
        List.not_mem_nil, if_neg, List.nil_append]
      rw [dictSet_dictSet]
      refine ⟨hconn, hrole, ?_, ?_⟩
      · intro p hp
        rcases mem_dictSet hp with hmem | heq
        · exact hwatch p hmem
        · rw [heq]; simp
      · rw [dictKeys_dictSet_of_none hg]
        have hnot : sid ∉ dictKeys s.session_watchers := by
          rw [mem_dictKeys_iff, hg]
          simp
        simp [List.nodup_append, hnd, hnot]

theorem inv_remove_watcher (s : ManagerState) (sid : SessionId) (a : UserId) (h : Inv s) :
    Inv (remove_session_watcher s sid a) := by
  obtain ⟨hconn, hrole, hwatch, hnd⟩ := h
  unfold remove_session_watcher
  cases hg : dictGet s.session_watchers sid with
  | none => exact ⟨hconn, hrole, hwatch, hnd⟩
  | some l =>
      by_cases hm : a ∈ l
      · simp only [if_pos hm]
        by_cases he : l.erase a = []
        · simp only [if_pos he]
          refine ⟨hconn, hrole, ?_, ?_⟩
          · intro p hp
            exact hwatch p (List.mem_of_mem_filter hp)
          · exact (dictKeys_dictErase_sublist _ _).nodup hnd
        · simp only [if_neg he]
          refine ⟨hconn, hrole, ?_, ?_⟩
          · intro p hp
            rcases mem_dictSet hp with hmem | heq
            · exact hwatch p hmem
            · rw [heq]; exact he
          · rw [dictKeys_dictSet_of_isSome (by rw [hg]; rfl)]
            exact hnd
      · simp only [if_neg hm]
        exact ⟨hconn, hrole, hwatch, hnd⟩

theorem inv_disconnect_all (s : ManagerState) : Inv (disconnect_all s) := by
  refine ⟨?_, ?_, ?_, ?_⟩ <;> simp [disconnect_all, dictGet_nil, dictKeys]

/-- Every state reachable through the public API satisfies the invariant. -/
theorem reachable_inv {s : ManagerState} (h : Reachable s) : Inv s := by
  induction h with
  | init => exact inv_initial
  | connect env s uid ws sid _ ih => exact inv_connect env s uid ws sid ih
  | disconnect s uid ws _ ih => exact inv_disconnect s uid ws ih
  | send_to_user env s uid m _ ih => exact inv_send_to_user env s uid m ih
  | send_to_session env s sid m excl _ ih => exact inv_send_to_session env s sid m excl ih
  | add_watcher s sid a _ ih => exact inv_add_watcher s sid a ih
  | remove_watcher s sid a _ ih => exact inv_remove_watcher s sid a ih
  | shutdown s _ _ => exact inv_disconnect_all s

/-! ### Cons equations for the watcher-strip function -/

theorem watchersAfter_cons_drop {uid : UserId} {p : SessionId × List UserId}
    (rest : Dict SessionId (List UserId)) (hm : uid ∈ p.2) (he : p.2.erase uid = []) :
    watchersAfterDisconnect (p :: rest) uid = watchersAfterDisconnect rest uid := by
  unfold watchersAfterDisconnect
  rw [List.filterMap_cons]
  have hfp : (if uid ∈ p.2 then
        (let l := p.2.erase uid; if l = [] then none else some (p.1, l))
      else some p) = none := by
    show (if uid ∈ p.2 then
        (if p.2.erase uid = [] then none else some (p.1, p.2.erase uid))
      else some p) = none
    rw [if_pos hm, if_pos he]
  rw [hfp]

theorem watchersAfter_cons_shrink {uid : UserId} {p : SessionId × List UserId}
    (rest : Dict SessionId (List UserId)) (hm : uid ∈ p.2) (he : ¬ p.2.erase uid = []) :
    watchersAfterDisconnect (p :: rest) uid =
      (p.1, p.2.erase uid) :: watchersAfterDisconnect rest uid := by
  unfold watchersAfterDisconnect
  rw [List.filterMap_cons]
  have hfp : (if uid ∈ p.2 then
        (let l := p.2.erase uid; if l = [] then none else some (p.1, l))
      else some p) = some (p.1, p.2.erase uid) := by
    show (if uid ∈ p.2 then
        (if p.2.erase uid = [] then none else some (p.1, p.2.erase uid))
      else some p) = some (p.1, p.2.erase uid)
    rw [if_pos hm, if_neg he]
  rw [hfp]

theorem watchersAfter_cons_keep {uid : UserId} {p : SessionId × List UserId}
    (rest : Dict SessionId (List UserId)) (hm : uid ∉ p.2) :
    watchersAfterDisconnect (p :: rest) uid = p :: watchersAfterDisconnect rest uid := by
  unfold watchersAfterDisconnect
  rw [List.filterMap_cons]
  have hfp : (if uid ∈ p.2 then
        (let l := p.2.erase uid; if l = [] then none else some (p.1, l))
      else some p) = some p := by
    show (if uid ∈ p.2 then
        (if p.2.erase uid = [] then none else some (p.1, p.2.erase uid))
      else some p) = some p
    rw [if_neg hm]
  rw [hfp]

/-- With unique keys, stripping the sole member of a session's watcher list
removes the session's entry from the index. -/
theorem dictGet_watchersAfter_erased {w : Dict SessionId (List UserId)} {uid : UserId}
    {sid : SessionId} {l : List UserId} (hnd : (dictKeys w).Nodup)
    (hg : dictGet w sid = some l) (hm : uid ∈ l) (he : l.erase uid = []) :
    dictGet (watchersAfterDisconnect w uid) sid = none := by
  induction w with
  | nil => simp [dictGet_nil] at hg
  | cons p rest ih =>
      rw [dictKeys, List.map_cons, List.nodup_cons] at hnd
      rw [dictGet_cons] at hg
      by_cases hp : p.1 = sid
      · rw [if_pos hp] at hg
        have hl : p.2 = l := Option.some.inj hg
        rw [watchersAfter_cons_drop rest (hl ▸ hm) (hl ▸ he)]
        have hnot : sid ∉ dictKeys (watchersAfterDisconnect rest uid) := by
          intro hmem
          exact hnd.1 (hp ▸ (dictKeys_watchersAfterDisconnect_sublist rest uid).subset hmem)
        rw [← Option.not_isSome_iff_eq_none]
        intro hs
        exact hnot ((mem_dictKeys_iff _ _).mpr hs)
      · rw [if_neg hp] at hg
        by_cases hmp : uid ∈ p.2
        · by_cases hep : p.2.erase uid = []
          · rw [watchersAfter_cons_drop rest hmp hep]
            exact ih hnd.2 hg
          · rw [watchersAfter_cons_shrink rest hmp hep, dictGet_cons, if_neg hp]
            exact ih hnd.2 hg
        · rw [watchersAfter_cons_keep rest hmp, dictGet_cons, if_neg hp]
          exact ih hnd.2 hg

/-- A concrete collaborator environment used by the witnesses: role lookups
succeed with `"admin"`, no session resolves, and every send succeeds. -/
def sampleEnv : Env :=
  ⟨fun _ => Except.ok "admin", fun _ => none, fun _ => true⟩

/-- C2: in every state reachable from the empty registry, a user is online
iff it has more than zero registered connections (no user maps to an empty
connection list), and the role cache holds a user iff the connection map
holds it. -/
theorem registry_role_cache_invariant (s : ManagerState) (h : Reachable s) :
    ∀ uid : UserId,
      (is_user_online s uid = true ↔ 0 < (userConnections s uid).length) ∧
      dictGet s.connections uid ≠ some [] ∧
      dictContains s.user_roles uid = dictContains s.connections uid := by
  obtain ⟨hconn, hrole, _, _⟩ := reachable_inv h
  intro uid
  have hne : dictGet s.connections uid ≠ some [] := by
    intro hc
    exact hconn (uid, []) (dictGet_mem hc) rfl
  refine ⟨?_, hne, ?_⟩
  · unfold is_user_online dictContains userConnections
    cases hg : dictGet s.connections uid with
    | none => simp
    | some l =>
        have hl : l ≠ [] := by
          intro h0
          exact hne (h0 ▸ hg)
        simp [List.length_pos, hl]
  · unfold dictContains
    rw [Bool.eq_iff_iff]
    exact hrole uid

theorem registry_role_cache_invariant_witness :
    (is_user_online (connect sampleEnv initialState 1 10 none) 1 = true ↔
      0 < (userConnections (connect sampleEnv initialState 1 10 none) 1).length) ∧
    dictGet (connect sampleEnv initialState 1 10 none).connections 1 ≠ some [] ∧
    dictContains (connect sampleEnv initialState 1 10 none).user_roles 1 =
      dictContains (connect sampleEnv initialState 1 10 none).connections 1 :=
  registry_role_cache_invariant (connect sampleEnv initialState 1 10 none)
    (Reachable.connect sampleEnv initialState 1 10 none Reachable.init) 1

/-- C4: in every reachable state, a watcher-index entry exists iff at least
one admin watches the session; removing the last watcher — by
`remove_session_watcher` or by that admin's `disconnect` — deletes the
entry entirely; and adding an already-present watcher changes nothing. -/
theorem watcher_index_invariant (s : ManagerState) (h : Reachable s) :
    (∀ sid : SessionId,
      dictContains s.session_watchers sid = true ↔ watchersOf s sid ≠ []) ∧
    (∀ (sid : SessionId) (a : UserId), dictGet s.session_watchers sid = some [a] →
      dictGet (remove_session_watcher s sid a).session_watchers sid = none ∧
      ∀ w : WS, dictGet (disconnect s a w).session_watchers sid = none) ∧
    (∀ (sid : SessionId) (a : UserId), a ∈ watchersOf s sid →
      add_session_watcher s sid a = s) := by
  obtain ⟨hconn, hrole, hwatch, hnd⟩ := reachable_inv h
  refine ⟨?_, ?_, ?_⟩
  · intro sid
    unfold dictContains watchersOf
    cases hg : dictGet s.session_watchers sid with
    | none => simp
    | some l =>
        have hl : l ≠ [] := hwatch (sid, l) (dictGet_mem hg)
        simp [hl]
  · intro sid a hg
    constructor
    · unfold remove_session_watcher
      rw [hg]
      show dictGet (if a ∈ [a] then
          (if ([a] : List UserId).erase a = [] then
            { s with session_watchers := dictErase s.session_watchers sid }
          else { s with session_watchers := dictSet s.session_watchers sid (([a] : List UserId).erase a) })
        else s).session_watchers sid = none
      rw [if_pos (List.mem_singleton.mpr rfl), if_pos (by simp)]
      exact dictGet_dictErase_self _ _
    · intro w
      rw [disconnect_eq]
      exact dictGet_watchersAfter_erased hnd hg (List.mem_singleton.mpr rfl) (by simp)
  · intro sid a hm
    unfold watchersOf at hm
    cases hg : dictGet s.session_watchers sid with
    | none => rw [hg] at hm; simp at hm
    | some l =>
        rw [hg] at hm
        rw [Option.getD_some] at hm
        unfold add_session_watcher
        have hc : dictContains s.session_watchers sid = true := by
          unfold dictContains; rw [hg]; rfl
        simp only [hc, if_true, hg, Option.getD_some, if_pos hm]

theorem watcher_index_invariant_witness :
    (∀ sid : SessionId,
      dictContains (add_session_watcher initialState "s1" 5).session_watchers sid = true ↔
        watchersOf (add_session_watcher initialState "s1" 5) sid ≠ []) ∧
    (∀ (sid : SessionId) (a : UserId),
      dictGet (add_session_watcher initialState "s1" 5).session_watchers sid = some [a] →
      dictGet (remove_session_watcher (add_session_watcher initialState "s1" 5) sid
          a).session_watchers sid = none ∧
      ∀ w : WS,
        dictGet (disconnect (add_session_watcher initialState "s1" 5) a w).session_watchers
          sid = none) ∧
    (∀ (sid : SessionId) (a : UserId),
      a ∈ watchersOf (add_session_watcher initialState "s1" 5) sid →
      add_session_watcher (add_session_watcher initialState "s1" 5) sid a =
        add_session_watcher initialState "s1" 5) :=
  watcher_index_invariant (add_session_watcher initialState "s1" 5)
    (Reachable.add_watcher initialState "s1" 5 Reachable.init)

/-! ### Presence, role fallback, duplicate registration -/

theorem dictGet_map_update [DecidableEq k] (d : Dict k v) (key : k) (g : v → v) :
    dictGet (d.map (fun p => if p.1 = key then (p.1, g p.2) else p)) key =
      (dictGet d key).map g := by
  induction d with
  | nil => rfl
  | cons p rest ih =>
      by_cases hp : p.1 = key
      · subst hp
        simp [List.map_cons, dictGet_cons]
      · simp only [List.map_cons, if_neg hp, dictGet_cons, if_neg hp, ih]

/-- C6: on an existing presence record with count `c ≥ 0`, the disconnect
update stores count `max 0 (c-1)`, sets the online flag to true exactly when
the new count is positive, and refreshes last-seen unconditionally. -/
theorem presence_disconnect_correct (db : Dict UserId PresenceRecord) (uid : UserId)
    (now : String) (r : PresenceRecord) (hg : dictGet db uid = some r)
    (_hc : 0 ≤ r.connection_count) :
    dictGet (update_presence_disconnect db uid now) uid =
      some (presenceDisconnectUpdate r now) ∧
    (presenceDisconnectUpdate r now).connection_count = max 0 (r.connection_count - 1) ∧
    ((presenceDisconnectUpdate r now).is_online = true ↔
      0 < (presenceDisconnectUpdate r now).connection_count) ∧
    (presenceDisconnectUpdate r now).last_seen = now := by
  refine ⟨?_, rfl, ?_, rfl⟩
  · unfold update_presence_disconnect
    have h2 := dictGet_map_update db uid (fun v => presenceDisconnectUpdate v now)
    rw [hg] at h2
    simpa using h2
  · unfold presenceDisconnectUpdate
    by_cases h : r.connection_count - 1 ≤ 0
    · have hmax : max 0 (r.connection_count - 1) = 0 := max_eq_left h
      simp [h, hmax]
    · have hlt : 0 < r.connection_count - 1 := lt_of_not_le h
      have hmax : max 0 (r.connection_count - 1) = r.connection_count - 1 :=
        max_eq_right (le_of_lt hlt)
      simp [h, hmax, hlt]

theorem presence_disconnect_correct_witness :
    dictGet (update_presence_disconnect
        [(3, ⟨true, "t0", "t0", 1⟩)] 3 "t1") 3 =
      some (presenceDisconnectUpdate ⟨true, "t0", "t0", 1⟩ "t1") ∧
    (presenceDisconnectUpdate ⟨true, "t0", "t0", 1⟩ "t1").connection_count =
      max 0 ((1 : Int) - 1) ∧
    ((presenceDisconnectUpdate ⟨true, "t0", "t0", 1⟩ "t1").is_online = true ↔
      0 < (presenceDisconnectUpdate ⟨true, "t0", "t0", 1⟩ "t1").connection_count) ∧
    (presenceDisconnectUpdate ⟨true, "t0", "t0", 1⟩ "t1").last_seen = "t1" :=
  presence_disconnect_correct [(3, ⟨true, "t0", "t0", 1⟩)] 3 "t1"
    ⟨true, "t0", "t0", 1⟩ (by rfl) (by norm_num)

/-- C9: when the role lookup raises, `_get_user_role` returns the fallback
role `"mentorado"`, and a first connection still registers the user and caches
that fallback role. -/
theorem role_lookup_failure_safe (env : Env) (uid : UserId) (e : String)
    (herr : env.lookup_role uid = Except.error e) (s : ManagerState)
    (hab : dictGet s.connections uid = none) (w : WS) (sid : Option SessionId) :
    getUserRole env uid = "mentorado" ∧
    dictGet (connect env s uid w sid).connections uid = some [w] ∧
    dictGet (connect env s uid w sid).user_roles uid = some "mentorado" := by
  have h1 : getUserRole env uid = "mentorado" := by
    unfold getUserRole
    rw [herr]
  have hcf : ¬ dictContains s.connections uid = true := by
    unfold dictContains
    rw [hab]
    simp
  refine ⟨h1, ?_, ?_⟩
  · rw [connect_eq]
    show dictGet (dictSet s.connections uid (userConnections s uid ++ [w])) uid = some [w]
    rw [dictGet_dictSet_self]
    unfold userConnections
    rw [hab]
    rfl
  · rw [connect_eq]
    show dictGet (if dictContains s.connections uid then s.user_roles
        else dictSet s.user_roles uid (getUserRole env uid)) uid = some "mentorado"
    rw [if_neg hcf, dictGet_dictSet_self, h1]

theorem role_lookup_failure_safe_witness :
    getUserRole ⟨fun _ => Except.error "db down", fun _ => none, fun _ => true⟩ 2 =
      "mentorado" ∧
    dictGet (connect ⟨fun _ => Except.error "db down", fun _ => none, fun _ => true⟩
        initialState 2 20 none).connections 2 = some [20] ∧
    dictGet (connect ⟨fun _ => Except.error "db down", fun _ => none, fun _ => true⟩
        initialState 2 20 none).user_roles 2 = some "mentorado" :=
  role_lookup_failure_safe ⟨fun _ => Except.error "db down", fun _ => none, fun _ => true⟩
    2 "db down" rfl initialState rfl 20 none

theorem sum_lengths_dictSet_some {d : Dict UserId (List WS)} {key : UserId}
    {l : List WS} (hg : dictGet d key = some l) (l' : List WS) :
    ((dictSet d key l').map (fun p => p.2.length)).sum + l.length =
      (d.map (fun p => p.2.length)).sum + l'.length := by
  induction d with
  | nil => simp [dictGet_nil] at hg
  | cons p rest ih =>
      rw [dictGet_cons] at hg
      by_cases hp : p.1 = key
      · rw [if_pos hp] at hg
        have hv : p.2 = l := Option.some.inj hg
        rw [show dictSet (p :: rest) key l' = (key, l') :: rest by simp [dictSet, hp]]
        simp [hv]
        omega
      · rw [if_neg hp] at hg
        rw [show dictSet (p :: rest) key l' = p :: dictSet rest key l' by
              simp [dictSet, hp]]
        simp only [List.map_cons, List.sum_cons]
        have := ih hg
        omega

theorem sum_lengths_dictSet_none {d : Dict UserId (List WS)} {key : UserId}
    (hg : dictGet d key = none) (l' : List WS) :
    ((dictSet d key l').map (fun p => p.2.length)).sum =
      (d.map (fun p => p.2.length)).sum + l'.length := by
  induction d with
  | nil => simp [dictSet]
  | cons p rest ih =>
      rw [dictGet_cons] at hg
      by_cases hp : p.1 = key
      · rw [if_pos hp] at hg
        simp at hg
      · rw [if_neg hp] at hg
        rw [show dictSet (p :: rest) key l' = p :: dictSet rest key l' by
              simp [dictSet, hp]]
        simp only [List.map_cons, List.sum_cons]
        have := ih hg
        omega

/-- Every `connect` call grows the total connection count by exactly one. -/
theorem get_connection_count_connect (env : Env) (s : ManagerState) (uid : UserId)
    (w : WS) (sid : Option SessionId) :
    get_connection_count (connect env s uid w sid) = get_connection_count s + 1 := by
  rw [connect_eq]
  show ((dictSet s.connections uid (userConnections s uid ++ [w])).map
      (fun p => p.2.length)).sum = get_connection_count s + 1
  unfold userConnections get_connection_count
  cases hg : dictGet s.connections uid with
  | none =>
      rw [sum_lengths_dictSet_none hg]
      simp
  | some l =>
      simp only [Option.getD_some]
      have h2 := sum_lengths_dictSet_some hg (l ++ [w])
      have h3 : (l ++ [w]).length = l.length + 1 := by simp
      omega

/-- `connect` appends the handle to the user's connection list. -/
theorem userConnections_connect (env : Env) (s : ManagerState) (uid : UserId) (w : WS)
    (sid : Option SessionId) :
    userConnections (connect env s uid w sid) uid = userConnections s uid ++ [w] := by
  rw [connect_eq]
  show (dictGet (dictSet s.connections uid (userConnections s uid ++ [w])) uid).getD [] =
    userConnections s uid ++ [w]
  rw [dictGet_dictSet_self]
  rfl

/-- C10: registering the identical handle twice stores two copies: the user's
list holds the handle twice, the global connection count grows by two, and one
`disconnect` removes only one copy, leaving the user online with one copy and
the global count still one above the starting point. -/
theorem duplicate_handle_not_idempotent (env : Env) (s : ManagerState) (uid : UserId)
    (w : WS) (hw : w ∉ userConnections s uid) :
    (userConnections (connect env (connect env s uid w none) uid w none) uid).count w = 2 ∧
    get_connection_count (connect env (connect env s uid w none) uid w none) =
      get_connection_count s + 2 ∧
    (userConnections (disconnect (connect env (connect env s uid w none) uid w none)
        uid w) uid).count w = 1 ∧
    is_user_online (disconnect (connect env (connect env s uid w none) uid w none)
        uid w) uid = true ∧
    get_connection_count (disconnect (connect env (connect env s uid w none) uid w none)
        uid w) = get_connection_count s + 1 := by
  set l := userConnections s uid with hl
  have hcount0 : l.count w = 0 := List.count_eq_zero.mpr hw
  have h1 : userConnections (connect env s uid w none) uid = l ++ [w] :=
    userConnections_connect env s uid w none
  have h2 : userConnections (connect env (connect env s uid w none) uid w none) uid =
      (l ++ [w]) ++ [w] := by
    rw [userConnections_connect, h1]
  have hget2 : dictGet (connect env (connect env s uid w none) uid w none).connections
      uid = some ((l ++ [w]) ++ [w]) := by
    have h3 := h2
    unfold userConnections at h3
    cases hg : dictGet (connect env (connect env s uid w none) uid w none).connections
        uid with
    | none => rw [hg] at h3; simp at h3
    | some x =>
        rw [hg] at h3
        rw [Option.getD_some] at h3
        rw [h3]
  have hmem : w ∈ (l ++ [w]) ++ [w] := by simp
  have herase : ((l ++ [w]) ++ [w]).erase w = l ++ [w] := by
    rw [List.append_assoc, List.erase_append_right _ hw]
    simp [List.erase_cons]
  have herase_ne : ¬ ((l ++ [w]) ++ [w]).erase w = [] := by
    rw [herase]
    simp
  have hconns3 : (disconnect (connect env (connect env s uid w none) uid w none)
      uid w).connections =
      dictSet (connect env (connect env s uid w none) uid w none).connections uid
        (l ++ [w]) := by
    rw [disconnect_eq]
    show connsAfterDisconnect _ uid w = _
    rw [connsAfter_keep hget2 hmem herase_ne, herase]
  refine ⟨?_, ?_, ?_, ?_, ?_⟩
  · rw [h2]
    simp [List.count_append, hcount0]
  · rw [get_connection_count_connect, get_connection_count_connect]
  · unfold userConnections
    rw [hconns3, dictGet_dictSet_self]
    simp [List.count_append, hcount0]
  · unfold is_user_online dictContains
    rw [hconns3, dictGet_dictSet_self]
    rfl
  · unfold get_connection_count
    rw [hconns3]
    have h4 := sum_lengths_dictSet_some hget2 (l ++ [w])
    have h5 : get_connection_count (connect env (connect env s uid w none) uid w none) =
        get_connection_count s + 2 := by
      rw [get_connection_count_connect, get_connection_count_connect]
    unfold get_connection_count at h5
    have h6 : ((l ++ [w]) ++ [w]).length = l.length + 2 := by simp
    have h7 : (l ++ [w]).length = l.length + 1 := by simp
    omega

theorem duplicate_handle_not_idempotent_witness :
    (10 ∉ userConnections initialState 1) ∧
    ((userConnections (connect sampleEnv (connect sampleEnv initialState 1 10 none)
        1 10 none) 1).count 10 = 2 ∧
      get_connection_count (connect sampleEnv (connect sampleEnv initialState 1 10 none)
        1 10 none) = get_connection_count initialState + 2 ∧
      (userConnections (disconnect (connect sampleEnv (connect sampleEnv initialState
        1 10 none) 1 10 none) 1 10) 1).count 10 = 1 ∧
      is_user_online (disconnect (connect sampleEnv (connect sampleEnv initialState
        1 10 none) 1 10 none) 1 10) 1 = true ∧
      get_connection_count (disconnect (connect sampleEnv (connect sampleEnv initialState
        1 10 none) 1 10 none) 1 10) = get_connection_count initialState + 1) :=
  ⟨by decide,
   duplicate_handle_not_idempotent sampleEnv initialState 1 10 (by decide)⟩

/-! ### Fan-out (C1) -/

theorem send_to_user_some_eq (env : Env) (s : ManagerState) (uid : UserId) (m : Msg)
    {conns : List WS} (hg : dictGet s.connections uid = some conns) :
    send_to_user env s uid m =
      ((conns.filter (fun w => decide (env.sendOk w = false))).foldl
          (fun st w => disconnect st uid w) s,
       ⟨[uid], conns.map (fun w => (uid, w, m)),
        (conns.filter (fun w => env.sendOk w)).map (fun w => (uid, w, m))⟩) := by
  unfold send_to_user
  rw [hg]

theorem send_to_user_none_eq (env : Env) (s : ManagerState) (uid : UserId) (m : Msg)
    (hg : dictGet s.connections uid = none) :
    send_to_user env s uid m = (s, ⟨[uid], [], []⟩) := by
  unfold send_to_user
  rw [hg]

/-- When the failing elements of a list form exactly the singleton `[d]`,
removing the first occurrence of `d` yields exactly the passing elements. -/
theorem erase_eq_filter_of_single_fail (p : WS → Bool) :
    ∀ (l : List WS) (d : WS), l.filter (fun a => ! p a) = [d] →
      l.erase d = l.filter p
  | [], d, h => by simp at h
  | a :: t, d, h => by
      by_cases hp : p a
      · have hft : t.filter (fun x => ! p x) = [d] := by
          rw [List.filter_cons] at h
          simpa [hp] using h
        have hdmem : d ∈ t.filter (fun x => ! p x) := by
          rw [hft]
          exact List.mem_singleton.mpr rfl
        have hnd : ¬ p d := by
          have := (List.mem_filter.mp hdmem).2
          simpa using this
        have hne : a ≠ d := by
          intro he
          rw [he] at hp
          exact hnd hp
        rw [List.erase_cons_tail, List.filter_cons_of_pos hp,
          erase_eq_filter_of_single_fail p t d hft]
        simp [hne]
      · have h2 : a = d ∧ t.filter (fun x => ! p x) = [] := by
          rw [List.filter_cons] at h
          have hpa : (! p a) = true := by simp [hp]
          rw [if_pos hpa] at h
          exact ⟨(List.cons.inj h).1, (List.cons.inj h).2⟩
        obtain ⟨had, hft⟩ := h2
        subst had
        rw [List.erase_cons_head, List.filter_cons_of_neg (by simp [hp])]
        have hall : ∀ x ∈ t, p x := by
          intro x hx
          by_contra hpx
          have : x ∈ t.filter (fun x => ! p x) :=
            List.mem_filter.mpr ⟨hx, by simp [hpx]⟩
          rw [hft] at this
          simp at this
        exact (List.filter_eq_self.mpr hall).symm

/-- C1: with exactly three registered connections of which exactly one fails,
`send_to_user` attempts all three, reaps the failed handle, leaves exactly the
two surviving connections registered, and delivers the message to precisely
those two; and for a user with no entry the call returns the state unchanged
with nothing attempted or delivered. -/
theorem send_to_user_fanout (env : Env) (s s0 : ManagerState) (uid u0 : UserId)
    (m m0 : Msg) (conns : List WS)
    (hg : dictGet s.connections uid = some conns)
    (hlen : conns.length = 3)
    (hfail : (conns.filter (fun w => decide (env.sendOk w = false))).length = 1)
    (hg0 : dictGet s0.connections u0 = none) :
    ((send_to_user env s uid m).2.attempts = conns.map (fun w => (uid, w, m)) ∧
      dictGet (send_to_user env s uid m).1.connections uid =
        some (conns.filter (fun w => env.sendOk w)) ∧
      (conns.filter (fun w => env.sendOk w)).length = 2 ∧
      (send_to_user env s uid m).2.delivered =
        (conns.filter (fun w => env.sendOk w)).map (fun w => (uid, w, m))) ∧
    ((send_to_user env s0 u0 m0).1 = s0 ∧
      (send_to_user env s0 u0 m0).2.attempts = [] ∧
      (send_to_user env s0 u0 m0).2.delivered = []) := by
  have hpred : (fun w => decide (env.sendOk w = false)) = (fun w => ! env.sendOk w) := by
    funext w
    cases h : env.sendOk w <;> simp
  obtain ⟨d, hd⟩ := List.length_eq_one.mp hfail
  have hd' : conns.filter (fun w => ! env.sendOk w) = [d] := by
    rw [← hpred]
    exact hd
  have hlen2 : (conns.filter (fun w => env.sendOk w)).length = 2 := by
    have := @List.length_eq_length_filter_add WS conns (fun w => env.sendOk w)
    rw [hd'] at this
    simp only [List.length_cons, List.length_nil] at this
    omega
  have herase : conns.erase d = conns.filter (fun w => env.sendOk w) :=
    erase_eq_filter_of_single_fail (fun w => env.sendOk w) conns d hd'
  have hdmem : d ∈ conns := by
    have : d ∈ conns.filter (fun w => ! env.sendOk w) := by
      rw [hd']
      exact List.mem_singleton.mpr rfl
    exact (List.mem_filter.mp this).1
  have hne : ¬ conns.erase d = [] := by
    rw [herase]
    intro h0
    rw [h0] at hlen2
    simp at hlen2
  rw [send_to_user_some_eq env s uid m hg, send_to_user_none_eq env s0 u0 m0 hg0]
  refine ⟨⟨rfl, ?_, hlen2, rfl⟩, rfl, rfl, rfl⟩
  rw [hd]
  show dictGet (disconnect s uid d).connections uid = _
  rw [disconnect_eq]
  show dictGet (connsAfterDisconnect s.connections uid d) uid = _
  rw [connsAfter_keep hg hdmem hne, herase, dictGet_dictSet_self]

/-- A concrete environment where handle 99 is dead and every other send works. -/
def deadNinetyNineEnv : Env :=
  ⟨fun _ => Except.ok "admin", fun _ => none, fun w => w ≠ 99⟩

theorem send_to_user_fanout_witness :
    ((send_to_user deadNinetyNineEnv
        ⟨[(1, [10, 99, 11])], [], [], [(1, "admin")]⟩ 1 7).2.attempts =
        [10, 99, 11].map (fun w => (1, w, 7)) ∧
      dictGet (send_to_user deadNinetyNineEnv
        ⟨[(1, [10, 99, 11])], [], [], [(1, "admin")]⟩ 1 7).1.connections 1 =
        some ([10, 99, 11].filter (fun w => deadNinetyNineEnv.sendOk w)) ∧
      ([10, 99, 11].filter (fun w => deadNinetyNineEnv.sendOk w)).length = 2 ∧
      (send_to_user deadNinetyNineEnv
        ⟨[(1, [10, 99, 11])], [], [], [(1, "admin")]⟩ 1 7).2.delivered =
        ([10, 99, 11].filter (fun w => deadNinetyNineEnv.sendOk w)).map
          (fun w => (1, w, 7))) ∧
    ((send_to_user deadNinetyNineEnv initialState 2 7).1 = initialState ∧
      (send_to_user deadNinetyNineEnv initialState 2 7).2.attempts = [] ∧
      (send_to_user deadNinetyNineEnv initialState 2 7).2.delivered = []) :=
  send_to_user_fanout deadNinetyNineEnv
    ⟨[(1, [10, 99, 11])], [], [], [(1, "admin")]⟩ initialState 1 2 7 7 [10, 99, 11]
    (by rfl) (by rfl) (by rfl) (by rfl)

/-! ### Broadcast target sets (C5) -/

theorem mem_broadcast_to_role_targets {s : ManagerState} {role : Role} {u : UserId} :
    u ∈ broadcast_to_role_targets s role ↔
      ∃ v : Role, (u, v) ∈ s.user_roles ∧ (v = role ∨ role = "all") := by
  unfold broadcast_to_role_targets
  constructor
  · intro h
    rcases List.mem_map.mp h with ⟨p, hp, hfst⟩
    rcases List.mem_filter.mp hp with ⟨hmem, hpred⟩
    refine ⟨p.2, ?_, of_decide_eq_true hpred⟩
    rw [← hfst]
    exact hmem
  · rintro ⟨v, hmem, hvr⟩
    exact List.mem_map.mpr ⟨(u, v), List.mem_filter.mpr ⟨hmem, decide_eq_true hvr⟩, rfl⟩

theorem mem_broadcast_all_targets {s : ManagerState} {u : UserId} :
    u ∈ broadcast_all_targets s ↔ (dictGet s.connections u).isSome :=
  mem_dictKeys_iff s.connections u

/-- C5: on any well-formed registry state satisfying the RoleCache-iff-connected
invariant, `broadcast_all` and `broadcast_to_role "all"` select exactly the same
users, namely all currently connected ones, and for any other role the selected
users are exactly the connected users whose cached role equals it.  (The key
list of a Python dict is duplicate-free by construction; the `Nodup` hypothesis
records that.) -/
theorem broadcast_role_all_equiv (s : ManagerState)
    (hrole : ∀ uid : UserId,
      (dictGet s.user_roles uid).isSome ↔ (dictGet s.connections uid).isSome)
    (hnd : (dictKeys s.user_roles).Nodup) :
    (∀ u : UserId, u ∈ broadcast_to_role_targets s "all" ↔ u ∈ broadcast_all_targets s) ∧
    (∀ u : UserId, u ∈ broadcast_all_targets s ↔ is_user_online s u = true) ∧
    (∀ r : Role, r ≠ "all" → ∀ u : UserId,
      u ∈ broadcast_to_role_targets s r ↔
        (is_user_online s u = true ∧ dictGet s.user_roles u = some r)) := by
  have honline : ∀ u : UserId,
      (is_user_online s u = true) ↔ (dictGet s.connections u).isSome := by
    intro u
    unfold is_user_online dictContains
    exact Iff.rfl
  refine ⟨?_, ?_, ?_⟩
  · intro u
    rw [mem_broadcast_to_role_targets, mem_broadcast_all_targets, ← hrole u]
    constructor
    · rintro ⟨v, hmem, _⟩
      rw [Option.isSome_iff_exists]
      exact ⟨v, dictGet_of_mem_nodup hnd hmem⟩
    · intro hsome
      rcases Option.isSome_iff_exists.mp hsome with ⟨v, hv⟩
      exact ⟨v, dictGet_mem hv, Or.inr rfl⟩
  · intro u
    rw [mem_broadcast_all_targets, honline u]
  · intro r hr u
    rw [mem_broadcast_to_role_targets, honline u, ← hrole u]
    constructor
    · rintro ⟨v, hmem, hvr⟩
      rcases hvr with hvr | hvr
      · subst hvr
        have hg : dictGet s.user_roles u = some v := dictGet_of_mem_nodup hnd hmem
        refine ⟨?_, hg⟩
        rw [Option.isSome_iff_exists]
        exact ⟨v, hg⟩
      · exact absurd hvr hr
    · rintro ⟨_, hg⟩
      exact ⟨r, dictGet_mem hg, Or.inl rfl⟩

theorem broadcast_role_all_equiv_witness :
    (∀ u : UserId,
      u ∈ broadcast_to_role_targets
          ⟨[(1, [10]), (2, [20])], [], [], [(1, "admin"), (2, "mentorado")]⟩ "all" ↔
        u ∈ broadcast_all_targets
          ⟨[(1, [10]), (2, [20])], [], [], [(1, "admin"), (2, "mentorado")]⟩) ∧
    (∀ u : UserId,
      u ∈ broadcast_all_targets
          ⟨[(1, [10]), (2, [20])], [], [], [(1, "admin"), (2, "mentorado")]⟩ ↔
        is_user_online
          ⟨[(1, [10]), (2, [20])], [], [], [(1, "admin"), (2, "mentorado")]⟩ u = true) ∧
    (∀ r : Role, r ≠ "all" → ∀ u : UserId,
      u ∈ broadcast_to_role_targets
          ⟨[(1, [10]), (2, [20])], [], [], [(1, "admin"), (2, "mentorado")]⟩ r ↔
        (is_user_online
            ⟨[(1, [10]), (2, [20])], [], [], [(1, "admin"), (2, "mentorado")]⟩ u = true ∧
          dictGet (ManagerState.user_roles
            ⟨[(1, [10]), (2, [20])], [], [], [(1, "admin"), (2, "mentorado")]⟩) u = some r)) :=
  broadcast_role_all_equiv
    ⟨[(1, [10]), (2, [20])], [], [], [(1, "admin"), (2, "mentorado")]⟩
    (by
      intro uid
      by_cases h1 : (1 : Nat) = uid <;> by_cases h2 : (2 : Nat) = uid <;>
        simp [dictGet, List.find?_cons, h1, h2])
    (by decide)

/-! ### Watcher stripping on every disconnect (C3) -/

/-- C3 as frozen is false: an admin with two live connections who disconnects
only one of them is nevertheless stripped from the watch set, because the
watcher-cleanup loop of `disconnect` does not check remaining connections. -/
theorem nonlast_disconnect_watcher_counterexample :
    2 ≤ (userConnections
        ⟨[(1, [10, 11])], [], [("s1", [1])], [(1, "admin")]⟩ 1).length ∧
    (1 : UserId) ∈ watchersOf
        ⟨[(1, [10, 11])], [], [("s1", [1])], [(1, "admin")]⟩ "s1" ∧
    watchersOf (disconnect
        ⟨[(1, [10, 11])], [], [("s1", [1])], [(1, "admin")]⟩ 1 10) "s1" ≠
      watchersOf ⟨[(1, [10, 11])], [], [("s1", [1])], [(1, "admin")]⟩ "s1" := by
  decide

theorem not_mem_erase_of_count_le_one {l : List UserId} {a : UserId}
    (h : l.count a ≤ 1) : a ∉ l.erase a := by
  induction l with
  | nil => simp
  | cons b t ih =>
      by_cases hb : b = a
      · subst hb
        rw [List.erase_cons_head]
        have hz : t.count b = 0 := by
          rw [List.count_cons_self] at h
          omega
        exact List.count_eq_zero.mp hz
      · rw [List.erase_cons_tail]
        · intro hmem
          rcases List.mem_cons.mp hmem with he | hmem2
          · exact hb he.symm
          · have hc : t.count a ≤ 1 := by
              rw [List.count_cons_of_ne (fun hc => hb hc.symm)] at h
              exact h
            exact ih hc hmem2
        · simp [hb]

/-- C3 amended: an admin is stripped from every WatchSet on every unregister of
any of its connections — not only the last one — and on an explicit unwatch
(watcher lists hold each admin at most once, as `add_session_watcher`
enforces). -/
theorem disconnect_strips_watchers (s : ManagerState) (uid : UserId) (w : WS)
    (hcount : ∀ p ∈ s.session_watchers, p.2.count uid ≤ 1) :
    (∀ sid : SessionId, uid ∉ watchersOf (disconnect s uid w) sid) ∧
    (∀ sid : SessionId, uid ∉ watchersOf (remove_session_watcher s sid uid) sid) := by
  constructor
  · intro sid
    rw [disconnect_eq]
    unfold watchersOf
    show uid ∉ (dictGet (watchersAfterDisconnect s.session_watchers uid) sid).getD []
    cases hg : dictGet (watchersAfterDisconnect s.session_watchers uid) sid with
    | none => simp
    | some l =>
        simp only [Option.getD_some]
        have hmem := dictGet_mem hg
        rcases mem_watchersAfterDisconnect hmem with ⟨_, hnotin⟩ | ⟨q, hq, _, hpq, _⟩
        · exact hnotin
        · have hl : l = q.2.erase uid := congrArg Prod.snd hpq
          rw [hl]
          exact not_mem_erase_of_count_le_one (hcount q hq)
  · intro sid
    unfold remove_session_watcher watchersOf
    cases hg : dictGet s.session_watchers sid with
    | none =>
        rw [hg]
        simp
    | some l =>
        by_cases hm : uid ∈ l
        · simp only [if_pos hm]
          by_cases he : l.erase uid = []
          · simp only [if_pos he]
            show uid ∉ (dictGet (dictErase s.session_watchers sid) sid).getD []
            rw [dictGet_dictErase_self]
            simp
          · simp only [if_neg he]
            show uid ∉ (dictGet (dictSet s.session_watchers sid (l.erase uid)) sid).getD []
            rw [dictGet_dictSet_self]
            simp only [Option.getD_some]
            exact not_mem_erase_of_count_le_one (hcount (sid, l) (dictGet_mem hg))
        · simp only [if_neg hm]
          rw [hg]
          simp only [Option.getD_some]
          exact hm

theorem disconnect_strips_watchers_witness :
    (∀ sid : SessionId, (1 : UserId) ∉ watchersOf
        (disconnect ⟨[(1, [10, 11])], [], [("s1", [1])], [(1, "admin")]⟩ 1 10) sid) ∧
    (∀ sid : SessionId, (1 : UserId) ∉ watchersOf
        (remove_session_watcher ⟨[(1, [10, 11])], [], [("s1", [1])], [(1, "admin")]⟩
          sid 1) sid) :=
  disconnect_strips_watchers ⟨[(1, [10, 11])], [], [("s1", [1])], [(1, "admin")]⟩ 1 10
    (by decide)

/-! ### Idempotence of unregister (C7) -/

/-- C7 as frozen is false: after registering the identical handle twice
(which the code permits, see `duplicate_handle_not_idempotent`), a second
`disconnect` of the same pair removes the second stored copy, so it does not
leave the state as the first call left it. -/
theorem unregister_idempotent_counterexample :
    disconnect (disconnect (connect sampleEnv (connect sampleEnv initialState 1 10 none)
        1 10 none) 1 10) 1 10 ≠
      disconnect (connect sampleEnv (connect sampleEnv initialState 1 10 none)
        1 10 none) 1 10 := by
  decide

theorem sessionsAfter_none {m : Dict UserId (Dict SessionId WS)} {uid : UserId}
    (ws : WS) (hc : dictGet m uid = none) : sessionsAfterDisconnect m uid ws = m := by
  unfold sessionsAfterDisconnect
  rw [hc]

theorem sessionsAfter_some {m : Dict UserId (Dict SessionId WS)} {uid : UserId}
    (ws : WS) {smap : Dict SessionId WS} (hc : dictGet m uid = some smap) :
    sessionsAfterDisconnect m uid ws =
      if smap.filter (fun p => decide (p.2 ≠ ws)) = [] then dictErase m uid
      else dictSet m uid (smap.filter (fun p => decide (p.2 ≠ ws))) := by
  unfold sessionsAfterDisconnect
  rw [hc]

theorem watchersAfter_id {w : Dict SessionId (List UserId)} {uid : UserId}
    (h : ∀ p ∈ w, uid ∉ p.2) : watchersAfterDisconnect w uid = w := by
  induction w with
  | nil => rfl
  | cons p rest ih =>
      rw [watchersAfter_cons_keep rest (h p (List.mem_cons_self p rest)),
        ih (fun q hq => h q (List.mem_cons_of_mem _ hq))]

theorem not_mem_watchersAfter {w : Dict SessionId (List UserId)} {uid : UserId}
    (hcount : ∀ p ∈ w, p.2.count uid ≤ 1) :
    ∀ p ∈ watchersAfterDisconnect w uid, uid ∉ p.2 := by
  intro p hp
  rcases mem_watchersAfterDisconnect hp with ⟨_, hnot⟩ | ⟨q, hq, _, hpq, _⟩
  · exact hnot
  · rw [show p.2 = q.2.erase uid from congrArg Prod.snd hpq]
    exact not_mem_erase_of_count_le_one (hcount q hq)

/-- C7 amended: `unregister` is idempotent on every state in which the handle
is stored at most once for the user and each watcher list holds the admin at
most once — the situation every state reachable without duplicate-handle
registration satisfies; removing an absent handle is always a no-op. -/
theorem unregister_idempotent (s : ManagerState) (uid : UserId) (w : WS)
    (hconn : (userConnections s uid).count w ≤ 1)
    (hwatch : ∀ p ∈ s.session_watchers, p.2.count uid ≤ 1) :
    disconnect (disconnect s uid w) uid w = disconnect s uid w := by
  rw [disconnect_eq s uid w, disconnect_eq]
  simp only [ManagerState.mk.injEq]
  refine ⟨?_, ?_, ?_, ?_⟩
  · -- connections
    cases hc : dictGet s.connections uid with
    | none =>
        have hcA := connsAfter_none w hc
        rw [hcA]
        exact hcA
    | some conns =>
        by_cases hw : w ∈ conns
        · by_cases he : conns.erase w = []
          · have hcA := connsAfter_last hc hw he
            rw [hcA]
            exact connsAfter_none w (dictGet_dictErase_self _ _)
          · have hcA := connsAfter_keep hc hw he
            rw [hcA]
            have hcount1 : conns.count w ≤ 1 := by
              unfold userConnections at hconn
              rw [hc] at hconn
              exact hconn
            exact connsAfter_not_mem (dictGet_dictSet_self _ _ _)
              (not_mem_erase_of_count_le_one hcount1)
        · have hcA := connsAfter_not_mem hc hw
          rw [hcA]
          exact hcA
  · -- user_sessions
    cases hs : dictGet s.user_sessions uid with
    | none =>
        have hsA := sessionsAfter_none w hs
        rw [hsA]
        exact hsA
    | some smap =>
        have hsA := sessionsAfter_some w hs
        by_cases hk : smap.filter (fun p => decide (p.2 ≠ w)) = []
        · rw [hsA, if_pos hk]
          exact sessionsAfter_none w (dictGet_dictErase_self _ _)
        · rw [hsA, if_neg hk]
          have hidem : (smap.filter (fun p => decide (p.2 ≠ w))).filter
              (fun p => decide (p.2 ≠ w)) = smap.filter (fun p => decide (p.2 ≠ w)) :=
            List.filter_eq_self.mpr (fun x hx => (List.mem_filter.mp hx).2)
          rw [sessionsAfter_some w (dictGet_dictSet_self _ _ _), hidem, if_neg hk,
            dictSet_dictSet]
  · -- session_watchers
    exact watchersAfter_id (not_mem_watchersAfter hwatch)
  · -- user_roles
    cases hc : dictGet s.connections uid with
    | none =>
        rw [connsAfter_none w hc]
        exact rolesAfter_none w hc
    | some conns =>
        by_cases hw : w ∈ conns
        · by_cases he : conns.erase w = []
          · rw [connsAfter_last hc hw he]
            exact rolesAfter_none w (dictGet_dictErase_self _ _)
          · rw [connsAfter_keep hc hw he]
            have hcount1 : conns.count w ≤ 1 := by
              unfold userConnections at hconn
              rw [hc] at hconn
              exact hconn
            exact rolesAfter_not_mem (dictGet_dictSet_self _ _ _)
              (not_mem_erase_of_count_le_one hcount1)
        · rw [connsAfter_not_mem hc hw]
          exact rolesAfter_not_mem hc hw

theorem unregister_idempotent_witness :
    disconnect (disconnect ⟨[(1, [10])], [], [("s1", [1])], [(1, "admin")]⟩ 1 10) 1 10 =
      disconnect ⟨[(1, [10])], [], [("s1", [1])], [(1, "admin")]⟩ 1 10 :=
  unregister_idempotent ⟨[(1, [10])], [], [("s1", [1])], [(1, "admin")]⟩ 1 10
    (by decide) (by decide)

/-! ### Session routing (C8) -/

theorem send_to_session_none_eq (env : Env) (s : ManagerState) (sid : SessionId)
    (m : Msg) (excl : Option UserId) (hown : env.session_owner sid = none) :
    send_to_session env s sid m excl = (s, SendLog.empty) := by
  unfold send_to_session
  rw [hown]

/-- When every registered connection of the user is live, `send_to_user`
leaves the state untouched and delivers to exactly those connections. -/
theorem send_to_user_live (env : Env) (s : ManagerState) (uid : UserId) (m : Msg)
    (hlive : ∀ w ∈ userConnections s uid, env.sendOk w = true) :
    send_to_user env s uid m =
      (s, ⟨[uid], (userConnections s uid).map (fun w => (uid, w, m)),
           (userConnections s uid).map (fun w => (uid, w, m))⟩) := by
  cases hg : dictGet s.connections uid with
  | none =>
      rw [send_to_user_none_eq env s uid m hg]
      unfold userConnections
      rw [hg]
      rfl
  | some conns =>
      have hconns : userConnections s uid = conns := by
        unfold userConnections
        rw [hg]
        rfl
      rw [hconns] at hlive
      have hdead : conns.filter (fun w => decide (env.sendOk w = false)) = [] := by
        rw [List.filter_eq_nil_iff]
        intro w hw
        simp [hlive w hw]
      have hfull : conns.filter (fun w => env.sendOk w) = conns :=
        List.filter_eq_self.mpr hlive
      rw [send_to_user_some_eq env s uid m hg, hdead, hfull, hconns]
      rfl

theorem get_eq_of_list_eq {α : Type} {l l' : List α} (h : l = l') (i : Nat)
    (hi : i < l.length) : l.get ⟨i, hi⟩ = l'.get ⟨i, h ▸ hi⟩ := by
  subst h
  rfl

/-- C8: for a session owned by `A` (a nonzero id, as the schema guarantees)
and watched by `[B, C]`, excluding `B` targets exactly `A` then `C`, leaves the
state unchanged when their sends succeed, delivers to every connection of `A`
and `C`, and never attempts a send to `B`; and for an unresolvable session the
call is a pure no-op returning no error. -/
theorem send_to_session_routing (env : Env) (s : ManagerState) (S : SessionId)
    (m : Msg) (A B C : UserId)
    (hown : env.session_owner S = some A) (hA0 : A ≠ 0)
    (hw : watchersOf s S = [B, C]) (hAB : A ≠ B) (hBC : B ≠ C)
    (hliveA : ∀ w ∈ userConnections s A, env.sendOk w = true)
    (hliveC : ∀ w ∈ userConnections s C, env.sendOk w = true) :
    ((send_to_session env s S m (some B)).2.targets = [A, C] ∧
      (send_to_session env s S m (some B)).1 = s ∧
      (send_to_session env s S m (some B)).2.delivered =
        (userConnections s A).map (fun w => (A, w, m)) ++
          (userConnections s C).map (fun w => (C, w, m)) ∧
      ∀ e ∈ (send_to_session env s S m (some B)).2.attempts, e.1 ≠ B) ∧
    (∀ (s2 : ManagerState) (S2 : SessionId) (m2 : Msg) (excl2 : Option UserId),
      env.session_owner S2 = none →
        send_to_session env s2 S2 m2 excl2 = (s2, SendLog.empty)) := by
  have hexA : ¬ ((some B : Option UserId) = some A) := by
    intro hc
    exact hAB (Option.some.inj hc).symm
  have hsendA := send_to_user_live env s A m hliveA
  have hsendC := send_to_user_live env s C m hliveC
  have hlen : (watchersOf s S).length = 0 + 1 + 1 := by
    rw [hw]
    rfl
  have h0 : 0 < (watchersOf s S).length := by simp [hw]
  have h1 : 0 + 1 < (watchersOf s S).length := by simp [hw]
  have hget0 : (watchersOf s S).get ⟨0, h0⟩ = B := by
    rw [get_eq_of_list_eq hw 0 h0]
    rfl
  have hget1 : (watchersOf s S).get ⟨0 + 1, h1⟩ = C := by
    rw [get_eq_of_list_eq hw (0 + 1) h1]
    rfl
  have hex0 : (some B : Option UserId) = some ((watchersOf s S).get ⟨0, h0⟩) := by
    rw [hget0]
  have hex1 : ¬ ((some B : Option UserId) = some ((watchersOf s S).get ⟨0 + 1, h1⟩)) := by
    rw [hget1]
    intro hc
    exact hBC (Option.some.inj hc)
  have hfan : watcherFanout env S m (some B) ((watchersOf s S).length) 0 s
      SendLog.empty =
      ((send_to_user env s C m).1, SendLog.empty.append (send_to_user env s C m).2) := by
    rw [hlen]
    rw [watcherFanout_skip env S m (some B) (0 + 1) 0 s SendLog.empty h0 hex0]
    rw [watcherFanout_send env S m (some B) 0 (0 + 1) s SendLog.empty h1 hex1]
    rw [hget1]
    rfl
  have hmain : send_to_session env s S m (some B) =
      (s, (SendLog.append
            ⟨[A], (userConnections s A).map (fun w => (A, w, m)),
              (userConnections s A).map (fun w => (A, w, m))⟩
            (SendLog.append SendLog.empty
              ⟨[C], (userConnections s C).map (fun w => (C, w, m)),
                (userConnections s C).map (fun w => (C, w, m))⟩))) := by
    unfold send_to_session
    rw [hown]
    simp only [if_neg hA0, if_neg hexA]
    rw [hsendA]
    simp only
    rw [hfan, hsendC]
  refine ⟨⟨?_, ?_, ?_, ?_⟩, ?_⟩
  · rw [hmain]
    rfl
  · rw [hmain]
  · rw [hmain]
    simp [SendLog.append, SendLog.empty]
  · rw [hmain]
    intro e he
    simp only [SendLog.append, SendLog.empty, List.nil_append] at he
    rcases List.mem_append.mp he with hA | hC
    · rcases List.mem_map.mp hA with ⟨w, _, hws⟩
      rw [← hws]
      exact hAB
    · rcases List.mem_map.mp hC with ⟨w, _, hws⟩
      rw [← hws]
      intro hc
      exact hBC hc.symm
  · intro s2 S2 m2 excl2 hnone
    exact send_to_session_none_eq env s2 S2 m2 excl2 hnone

/-- Concrete environment for the routing witness: every session resolves to
user 1 and every send succeeds. -/
def routeEnv : Env := ⟨fun _ => Except.ok "admin", fun _ => some 1, fun _ => true⟩

/-- Concrete state for the routing witness: users 1, 2, 3 online, admins 2 and
3 watching session "s". -/
def routeState : ManagerState :=
  ⟨[(1, [10]), (2, [20]), (3, [30])], [], [("s", [2, 3])],
   [(1, "a"), (2, "admin"), (3, "admin")]⟩

theorem send_to_session_routing_witness :
    ((send_to_session routeEnv routeState "s" 5 (some 2)).2.targets = [1, 3] ∧
      (send_to_session routeEnv routeState "s" 5 (some 2)).1 = routeState ∧
      (send_to_session routeEnv routeState "s" 5 (some 2)).2.delivered =
        (userConnections routeState 1).map (fun w => (1, w, 5)) ++
          (userConnections routeState 3).map (fun w => (3, w, 5)) ∧
      ∀ e ∈ (send_to_session routeEnv routeState "s" 5 (some 2)).2.attempts,
        e.1 ≠ 2) ∧
    (∀ (s2 : ManagerState) (S2 : SessionId) (m2 : Msg) (excl2 : Option UserId),
      routeEnv.session_owner S2 = none →
        send_to_session routeEnv s2 S2 m2 excl2 = (s2, SendLog.empty)) :=
  send_to_session_routing routeEnv routeState "s" 5 1 2 3 rfl (by decide) (by decide)
    (by decide) (by decide) (by decide) (by decide)

end Hub
